import Mathlib

/-!
Verification development for the YouTube RAG system
(`backend/app/rag/{transcript,embeddings,retriever,pipeline}.py`,
`multiVideo.py`, `singleVideo.py`).

The Python sources are shallowly embedded as executable Lean functions.
External collaborators (the embedding provider, the LLM completion
provider, the retriever search, Unicode tables) are modelled as oracle
parameters; everything the repository itself computes is translated
directly from the source.  Machine integers are modelled as `Nat`/`Int`
(no overflow is reachable in the modelled code paths); fallible calls
are modelled with `Option`/`Except`.
-/

/- ── Python string primitives ──────────────────────────────────────────
Python `str.strip()` / `str.split()` split on whitespace.  The modelled
code paths only involve ASCII whitespace, which we encode explicitly. -/

/-- ASCII whitespace, as recognised by Python `str.strip`/`str.split`
on the inputs the modelled code handles. -/
def isPyWs (c : Char) : Bool :=
  c = ' ' || c = '\t' || c = '\n' || c = '\x0d' || c = '\x0b' || c = '\x0c'

/-- Python `s.strip()`: drop leading and trailing whitespace. -/
def pyStrip (s : String) : String :=
  String.mk (((s.data.dropWhile isPyWs).reverse.dropWhile isPyWs).reverse)

/-- Worker for `pySplitWs`: accumulates the current token (reversed). -/
def splitWsGo (cur : List Char) : List Char → List String
  | [] => if cur.isEmpty then [] else [String.mk cur.reverse]
  | c :: rest =>
    if isPyWs c then
      if cur.isEmpty then splitWsGo [] rest
      else String.mk cur.reverse :: splitWsGo [] rest
    else splitWsGo (c :: cur) rest

/-- Python `s.split()` (no argument): split on whitespace runs,
discarding empty tokens. -/
def pySplitWs (s : String) : List String :=
  splitWsGo [] s.data

/-- Python `sep.join(xs)`. -/
def joinWith (sep : String) : List String → String
  | [] => ""
  | [x] => x
  | x :: xs => x ++ sep ++ joinWith sep xs

/-- `" ".join(content.split())`: collapse internal whitespace runs to
single spaces (and trim). -/
def collapseWs (s : String) : String :=
  joinWith " " (pySplitWs s)

/-- `"".join(ch for ch in content if unicodedata.category(ch)[0] != "C")`:
drop every character of Unicode category C.  The category table is an
external library (`unicodedata`), so membership in category C is an
oracle parameter `isCatC`. -/
def stripCtrl (isCatC : Char → Bool) (s : String) : String :=
  String.mk (s.data.filter (fun c => !(isCatC c)))

/-- Python `s[:n]` on the strings the modelled code handles. -/
def strTake (s : String) (n : Nat) : String :=
  String.mk (s.data.take n)

/- ── Data model ──────────────────────────────────────────────────────── -/

/-- A LangChain `Document` restricted to the metadata the modelled code
reads: `page_content` plus the `video_id`/`start`/`end` metadata keys
(`end` is renamed `stop`, `end` being a Lean keyword). -/
structure Doc where
  page_content : String
  video_id : String
  start : Nat
  stop : Nat
deriving DecidableEq, Repr

/-- A chat-history message: (`type`, `content`), e.g. `("human", …)`. -/
abbrev Msg := String × String

/-- Total `page_content` character count of a document list. -/
def docTotalLen (docs : List Doc) : Nat :=
  (docs.map (fun d => d.page_content.length)).sum

/- ── Embedding model (embeddings.py / multiVideo.py) ────────────────────
A provider vector element is either a finite float, a non-finite float
(NaN/Inf), or a value `float()` raises on.  The nesting structure of the
raw vector is irrelevant to the code (both the sanitizer and the
validator flatten it), so a raw vector is modelled by its flattened
element list.  One raw provider call may also raise as a whole
(`none`). -/

/-- One flattened element of a raw provider embedding vector. -/
inductive PyElem where
  | fin : PyElem
  | nonfin : PyElem
  | nonnum : PyElem
deriving DecidableEq, Repr

/-- `float(v)` succeeds on this element. -/
def PyElem.isNum : PyElem → Bool
  | .nonnum => false
  | _ => true

/-- `float(v)` succeeds and `math.isfinite` holds. -/
def PyElem.isFin : PyElem → Bool
  | .fin => true
  | _ => false

/-- `SafeOllamaEmbeddings._sanitize_vector`, per element: a non-finite
or non-convertible element is replaced by `0.0` (a finite number). -/
def sanitizeElem : PyElem → PyElem
  | _ => .fin

/-- The raw embedding provider: the n-th `super().embed_query(text)`
call for a given text returns a flattened vector, or raises (`none`). -/
def RawOracle : Type := String → Nat → Option (List PyElem)

/-- `SafeOllamaEmbeddings.embed_query` (backend `embeddings.py` and
`singleVideo.py`): up to two raw attempts, each sanitized on success;
when both raise, the last exception is re-raised (`none`).  The
`attempt` index keeps the raw calls of distinct validator attempts
distinct: validator attempt `a` consumes raw calls `2*a` and
`2*a + 1`. -/
def safeEmbedQuery (raw : RawOracle) (text : String) (attempt : Nat) :
    Option (List PyElem) :=
  match raw text (2 * attempt) with
  | some v => some (v.map sanitizeElem)
  | none =>
    match raw text (2 * attempt + 1) with
    | some v => some (v.map sanitizeElem)
    | none => none

/-- `SafeOllamaEmbeddings.embed_query` (`multiVideo.py`): same retry
loop, but after two failed attempts it returns the safe vector `[0.0]`
instead of raising. -/
def safeEmbedQueryMV (raw : RawOracle) (text : String) (attempt : Nat) :
    List PyElem :=
  match raw text (2 * attempt) with
  | some v => v.map sanitizeElem
  | none =>
    match raw text (2 * attempt + 1) with
    | some v => v.map sanitizeElem
    | none => [PyElem.fin]

/-- The numeric checks of one validator attempt, backend version
(`embeddings.py` / `singleVideo.py`): flattening with `float(x)` raises
on a non-numeric element; then `if not flat or len(flat) < 100: raise`;
then `if any(not math.isfinite(v) for v in flat): raise`. -/
def attemptOk (vec : List PyElem) : Bool :=
  vec.all PyElem.isNum && decide (100 ≤ vec.length) && vec.all PyElem.isFin

/-- The numeric checks of one validator attempt, `multiVideo.py`
version: `if not flat: raise` (no minimum-length check) and the
finiteness check. -/
def attemptOkMV (vec : List PyElem) : Bool :=
  vec.all PyElem.isNum && !vec.isEmpty && vec.all PyElem.isFin

/-- Backend validator retry loop for one chunk: two attempts, success
as soon as one attempt embeds and passes the numeric checks
(an `embed_query` exception counts as a failed attempt). -/
def chunkSuccess (raw : RawOracle) (text : String) : Bool :=
  (match safeEmbedQuery raw text 0 with
   | some vec => attemptOk vec
   | none => false) ||
  (match safeEmbedQuery raw text 1 with
   | some vec => attemptOk vec
   | none => false)

/-- `multiVideo.py` validator retry loop for one chunk (its
`embed_query` never raises). -/
def chunkSuccessMV (raw : RawOracle) (text : String) : Bool :=
  attemptOkMV (safeEmbedQueryMV raw text 0) ||
  attemptOkMV (safeEmbedQueryMV raw text 1)

/- ── Chunk validator (validate_chunks_for_embeddings) ──────────────────
The three Python copies (backend `embeddings.py`, `singleVideo.py`,
`multiVideo.py`) share the sanitization pipeline and the merge-or-drop
policy and differ only in the per-chunk success condition, so the
validator is parameterised by `succ : String → Bool`.  NFKC
normalisation is an external library call, passed as the oracle
`nfkc`. -/

/-- The sanitised text of one chunk, up to (and excluding) the
minimum-length check: `strip`, control-character removal, whitespace
collapsing. -/
def sanitizePre (isCatC : Char → Bool) (s : String) : String :=
  collapseWs (stripCtrl isCatC (pyStrip s))

/-- Worker for the validator.  `racc` is the list of validated chunks
in reverse order (Python appends to / rewrites the last element of
`validated_chunks`). -/
def validateGo (nfkc : String → String) (isCatC : Char → Bool)
    (succ : String → Bool) (racc : List Doc) : List Doc → List Doc
  | [] => racc.reverse
  | chunk :: rest =>
    let content0 := pyStrip chunk.page_content
    if content0.isEmpty then validateGo nfkc isCatC succ racc rest
    else
      let content1 := collapseWs (stripCtrl isCatC content0)
      if content1.length < 15 then validateGo nfkc isCatC succ racc rest
      else
        let content := nfkc content1
        if succ content then
          validateGo nfkc isCatC succ
            ({ chunk with page_content := content } :: racc) rest
        else
          match racc with
          | [] => validateGo nfkc isCatC succ [] rest
          | prev :: racc2 =>
            validateGo nfkc isCatC succ
              ({ prev with page_content := prev.page_content ++ " " ++ content }
                :: racc2) rest

/-- `validate_chunks_for_embeddings`, generic in the per-chunk success
condition. -/
def validateChunksWith (nfkc : String → String) (isCatC : Char → Bool)
    (succ : String → Bool) (chunks : List Doc) : List Doc :=
  validateGo nfkc isCatC succ [] chunks

/-- `validate_chunks_for_embeddings` (backend `embeddings.py`,
identical in `singleVideo.py`). -/
def validate_chunks_for_embeddings (nfkc : String → String)
    (isCatC : Char → Bool) (raw : RawOracle) (chunks : List Doc) : List Doc :=
  validateChunksWith nfkc isCatC (chunkSuccess raw) chunks

/-- `validate_chunks_for_embeddings` (`multiVideo.py`): same pipeline,
but the success condition lacks the minimum-length check and its
embedder falls back to `[0.0]` instead of raising. -/
def validate_chunks_mv (nfkc : String → String)
    (isCatC : Char → Bool) (raw : RawOracle) (chunks : List Doc) : List Doc :=
  validateChunksWith nfkc isCatC (chunkSuccessMV raw) chunks

/-- Whether a chunk survives the sanitization filters (non-empty after
`strip`, ≥ 15 characters after control-stripping and whitespace
collapsing). -/
def survivesFilters (isCatC : Char → Bool) (d : Doc) : Bool :=
  !(pyStrip d.page_content).isEmpty &&
  !decide ((sanitizePre isCatC d.page_content).length < 15)

/-- The final sanitised text a surviving chunk carries into the
embedding stage. -/
def finalText (nfkc : String → String) (isCatC : Char → Bool) (d : Doc) :
    String :=
  nfkc (sanitizePre isCatC d.page_content)

/-- Total character count of the sanitised texts of all
filter-surviving chunks. -/
def survivorLen (nfkc : String → String) (isCatC : Char → Bool)
    (chunks : List Doc) : Nat :=
  ((chunks.filter (survivesFilters isCatC)).map
    (fun d => (finalText nfkc isCatC d).length)).sum

/-- Total sanitised character count of the chunks that fail the embed
success condition while no ValidatedChunk exists yet to merge into
(those chunks are dropped by the validator).  `hasPrev` mirrors
whether `validated_chunks` is non-empty. -/
def noPredFailLenGo (nfkc : String → String) (isCatC : Char → Bool)
    (succ : String → Bool) (hasPrev : Bool) : List Doc → Nat
  | [] => 0
  | chunk :: rest =>
    if survivesFilters isCatC chunk then
      let content := finalText nfkc isCatC chunk
      if succ content then noPredFailLenGo nfkc isCatC succ true rest
      else if hasPrev then noPredFailLenGo nfkc isCatC succ true rest
      else content.length + noPredFailLenGo nfkc isCatC succ false rest
    else noPredFailLenGo nfkc isCatC succ hasPrev rest

/-- Sanitised character count of the chunks dropped for lack of a
predecessor ValidatedChunk. -/
def noPredFailLen (nfkc : String → String) (isCatC : Char → Bool)
    (succ : String → Bool) (chunks : List Doc) : Nat :=
  noPredFailLenGo nfkc isCatC succ false chunks

/- ── Chunker dynamic_k (transcript.py / multiVideo.py / singleVideo.py) ─
`ingest_video_to_chunks` ends with
  `if num_chunks < 20: dynamic_k = min(num_chunks, 5)`
  `else: dynamic_k = max(5, min(10, int(math.log2(num_chunks) * 1.5)))`.
`int()` truncates toward zero.  For `n ≥ 1`,
`int(log2(n) * 1.5) = ⌊1.5·log2 n⌋ = ⌊⌊log2 (n³)⌋ / 2⌋`
(since `1.5·log2 n = log2 (n³) / 2` and `⌊x/2⌋ = ⌊⌊x⌋/2⌋`); in the range
where the clamp has not saturated (`n ≤ 161`) the IEEE-double
computation of `log2(n) * 1.5` is exact at the only integer value
(`n = 64`) and elsewhere more than 1e-3 away from an integer, so the
float truncation coincides with the exact one.  `⌊log2 m⌋` is embedded
as the fuel-based `log2floor` below (kernel-reducible, unlike
`Nat.log`). -/

/-- Fuel-based binary logarithm: `log2floorAux fuel n = ⌊log2 n⌋` for
`n ≥ 1` whenever `fuel ≥ n`. -/
def log2floorAux : Nat → Nat → Nat
  | 0, _ => 0
  | fuel + 1, n => if n < 2 then 0 else log2floorAux fuel (n / 2) + 1

/-- `⌊log2 n⌋` (0 at 0). -/
def log2floor (n : Nat) : Nat := log2floorAux n n

/-- The Chunker's `dynamic_k` as a function of `num_chunks`
(`transcript.py:175-179`, identical in `multiVideo.py` and
`singleVideo.py`). -/
def dynamic_k (num_chunks : Nat) : Nat :=
  if num_chunks < 20 then min num_chunks 5
  else max 5 (min 10 (log2floor (num_chunks ^ 3) / 2))

/-- The spec sentence's formula: `clamp(round(log2(num_chunks) * 1.5), 5, 10)`
for `num_chunks ≥ 20`.  `round(1.5·log2 n) = ⌊(⌊log2 (n³)⌋ + 1) / 2⌋`
whenever `1.5·log2 n` is not a half-integer; the only half-integer
values at `n ≥ 20` are `n = 2^j` with `j` odd (`n = 32, 128, …`), where
this formula still agrees with Python round-half-to-even after the
clamp (`n = 32`: both give 8; `n ≥ 128`: both clamp to 10). -/
def dynamic_k_round (num_chunks : Nat) : Nat :=
  if num_chunks < 20 then min num_chunks 5
  else max 5 (min 10 ((log2floor (num_chunks ^ 3) + 1) / 2))

/- ── Summary text preparation (pipeline.py `_get_universal_summary`,
`multiVideo.py` `get_dual_video_summary.prepare_text`, `singleVideo.py`
`get_universal_summary`) ──────────────────────────────────────────────
All three copies prepare the text handed to the completion provider the
same way; the provider call itself is external, so the model returns
the prepared `final_text`. -/

/-- Python `xs[::step]` for `step ≥ 1`: elements at indices
`0, step, 2*step, …`. -/
def everyNth (xs : List α) (step : Nat) : List α :=
  xs.enum.filterMap (fun p => if p.1 % step = 0 then some p.2 else none)

/-- The `final_text` computed by `_get_universal_summary`
(`pipeline.py:418-427`): chunks are carried by their `page_content`.
`MAX_CHARS = 500000`; over budget, `step = len(total_text) // MAX_CHARS + 1`
and the chunk list is sampled as `chunks[::step]`. -/
def summary_final_text (chunks : List String) : String :=
  let total_text := joinWith " " chunks
  if total_text.length > 500000 then
    let step := total_text.length / 500000 + 1
    joinWith " " (everyNth chunks step)
  else total_text

/-- The spec sentence's version of the same computation, with
`stride = ceil(len/budget)`. -/
def summary_final_text_spec (chunks : List String) : String :=
  let total_text := joinWith " " chunks
  if total_text.length > 500000 then
    let step := (total_text.length + 500000 - 1) / 500000
    joinWith " " (everyNth chunks step)
  else total_text

/- ── Evidence quality filter (retriever.py / multiVideo.py) ──────────── -/

/-- Python `any(ch.isalpha() or ch.isdigit() for ch in t)` restricted to
the ASCII range the modelled inputs use. -/
def hasAlnum (t : String) : Bool :=
  t.data.any (fun c => c.isAlpha || c.isDigit)

/-- `re.fullmatch(r"[\d,.\-]+", t)`: non-empty and all characters are
digits, commas, periods or hyphens. -/
def isNumericToken (t : String) : Bool :=
  !t.data.isEmpty && t.data.all (fun c => c.isDigit || c = ',' || c = '.' || c = '-')

/-- `re.search(r"[,.\?\!]{3,}", txt)`: three consecutive characters
from `{, . ? !}`. -/
def isPunct (c : Char) : Bool :=
  c = ',' || c = '.' || c = '?' || c = '!'

/-- Worker for the punctuation-run check. -/
def hasPunctRun3 : List Char → Bool
  | a :: b :: c :: rest =>
    (isPunct a && isPunct b && isPunct c) || hasPunctRun3 (b :: c :: rest)
  | _ => false

/-- `is_low_quality_text` (`retriever.py:92-115`, identical in
`multiVideo.py:424-459`).  The Python float-ratio comparisons
`a / max(1, n) > r` are embedded as exact rational comparisons
(`tokens` is non-empty past the early return, so `max(1, n) = n`; the
double rounding of `a / n` cannot cross the thresholds 0.25, 0.4, 0.6
for any list length the code can produce). -/
def is_low_quality_text (s : String) (min_len : Nat := 15) : Bool :=
  if s.isEmpty then true
  else
    let txt := pyStrip s
    if txt.length < min_len then true
    else
      let tokens := pySplitWs txt
      if tokens.isEmpty then true
      else
        let one_char := (tokens.filter (fun t => t.length = 1)).length
        if 4 * one_char > tokens.length then true
        else
          let non_alnum := (tokens.filter (fun t => !hasAlnum t)).length
          if 5 * non_alnum > 2 * tokens.length then true
          else if hasPunctRun3 txt.data then true
          else
            let numeric := (tokens.filter isNumericToken).length
            if 5 * numeric > 3 * tokens.length then true
            else false

/-- `sec_to_mmss` (`transcript.py:191-194`): `%02d:%02d` of
minutes/seconds. -/
def pad2 (n : Nat) : String :=
  if n < 10 then "0" ++ toString n else toString n

/-- `sec_to_mmss`. -/
def sec_to_mmss (s : Nat) : String :=
  pad2 (s / 60) ++ ":" ++ pad2 (s % 60)

/-- `content.strip().replace("\n", " ")` — the replacement target is a
single character, so it is a character map. -/
def stripReplaceNl (s : String) : String :=
  String.mk ((pyStrip s).data.map (fun c => if c = '\n' then ' ' else c))

/-- `format_evidence` (`retriever.py:118-146`, identical in
`multiVideo.py:462-490`): returns `(evidence_text, kept, dropped)`. -/
def format_evidence (docs : List Doc) (filter_low_quality : Bool := true) :
    String × Nat × Nat :=
  if docs.isEmpty then ("No transcript evidence found.", 0, 0)
  else
    let step := fun (acc : List String × Nat × Nat) (d : Doc) =>
      let content := stripReplaceNl d.page_content
      if filter_low_quality && is_low_quality_text content then
        (acc.1, acc.2.1, acc.2.2 + 1)
      else
        let quote := if content.length > 280 then strTake content 277 ++ "..."
                     else content
        (acc.1 ++ ["[" ++ sec_to_mmss d.start ++ "] " ++ quote],
         acc.2.1 + 1, acc.2.2)
    let res := docs.foldl step ([], 0, 0)
    if res.2.1 = 0 then
      ("No good transcript evidence found (most retrieved segments were low-quality).",
       res.2.1, res.2.2)
    else (joinWith "\n" res.1, res.2.1, res.2.2)

/- ── Retrieval cache (multiVideo.py `get_structured_docs`) ─────────────
One call is modelled sequentially: `cache1` is the cache entry seen by
the first `cache_key in retrieval_cache` check, `cache2` the entry seen
by the re-check after a failed non-blocking lock acquisition
(`contended = true` models `lock.acquire(blocking=False)` returning
False), and `retrieve` the outcome of the retriever calls (the nested
`get_relevant_documents` / `invoke` fallback collapses to one outcome:
a document list, or an exception).  The result pairs the returned list
with the cache entry the call publishes (`none` = no write). -/

/-- The deduplication key `(video_id, start)`. -/
def dkey (d : Doc) : String × Nat := (d.video_id, d.start)

/-- The contended-path deduplication (`merged`): keep first-seen
`(video_id, start)` keys, no length cut (Python builds `seen` as a set;
a key list models it). -/
def dedupAll (seen : List (String × Nat)) : List Doc → List Doc
  | [] => []
  | d :: rest =>
    if dkey d ∈ seen then dedupAll seen rest
    else d :: dedupAll (dkey d :: seen) rest

/-- The lock-holding-path deduplication (`final`): keep first-seen keys
and `break` once `len(final) >= k` — the check runs after the append,
so `seen.length` tracks `len(final)` and the element that reaches the
bound is still kept. -/
def dedupTake (seen : List (String × Nat)) (k : Nat) : List Doc → List Doc
  | [] => []
  | d :: rest =>
    if dkey d ∈ seen then dedupTake seen k rest
    else if k ≤ seen.length + 1 then [d]
    else d :: dedupTake (dkey d :: seen) k rest

/-- `get_structured_docs` (`multiVideo.py:727-787`), returning
`(result, published cache entry)`. -/
def get_structured_docs (cache1 cache2 : Option (List Doc))
    (contended : Bool) (retrieve : Except Unit (List Doc)) (k : Nat) :
    List Doc × Option (List Doc) :=
  match cache1 with
  | some cached => (cached.take k, none)
  | none =>
    if contended then
      match cache2 with
      | some cached => (cached.take k, none)
      | none =>
        match retrieve with
        | .ok docs =>
          let merged := dedupAll [] docs
          ((merged.take k), some (merged.take k))
        | .error _ => ([], none)
    else
      let docs := match retrieve with
        | .ok ds => ds
        | .error _ => []
      let final := dedupTake [] k docs
      (final, some final)

/- ── Single-video chat (pipeline.py `chat_with_video`) ─────────────────
External effects are oracle fields; the outcome records the history and
summary cache after the turn and, when the RAG generation chain was
invoked, the `context` string it was handed (`genContext`), so that
"generation was called with an empty context" is observable. -/

/-- Metadata dictionary fields the chat/compare paths read. -/
structure Metadata where
  video_id : String
  title : String
  channel : String
  date : String
  description : String
deriving DecidableEq, Repr

/-- A `process_video` result (`pipeline.py:205-231`):
`vectorstore = true` models a non-`None` vectorstore. -/
structure Processed where
  video_id : String
  metadata : Metadata
  chunks : List Doc
  dynamic_k : Nat
  vectorstore : Bool
deriving DecidableEq, Repr

/-- Oracles for one `chat_with_video` turn.  `generation` is keyed by
the `context` string assembled from the filtered docs (the remaining
prompt inputs are fixed by the function's arguments). -/
structure ChatOracle where
  intent : String
  retrieval : Except Unit (List Doc)
  generation : String → Except Unit String
  summaryGen : Except Unit String

/-- The structured result `chat_with_video` returns. -/
structure ChatResult where
  response : String
  intent : String
  sources : List (Nat × String)
deriving DecidableEq, Repr

/-- Observable outcome of one `chat_with_video` turn. -/
structure ChatOutcome where
  result : ChatResult
  history : List Msg
  summaryCache : Option String
  genContext : Option String
deriving DecidableEq, Repr

/-- `chat_with_video` (`pipeline.py:234-315`).  `summaryCache` is the
session's `summary_cache` entry for this video.  An uncaught exception
(the `_get_universal_summary` provider call is outside every `try`)
is `.error`. -/
def chat_with_video (o : ChatOracle) (p : Processed) (hist : List Msg)
    (summaryCache : Option String) (message : String) :
    Except Unit ChatOutcome :=
  if p.chunks.isEmpty || !p.vectorstore then
    .ok ⟨⟨"Transcript not available for video " ++ p.video_id ++
          ". Please provide a video with captions.", "ERROR", []⟩,
         hist, summaryCache, none⟩
  else if o.intent = "SUMMARY" then
    match summaryCache with
    | some s =>
      .ok ⟨⟨s, "SUMMARY", []⟩, hist ++ [("human", message), ("ai", s)],
           some s, none⟩
    | none =>
      match o.summaryGen with
      | .error e => .error e
      | .ok s =>
        .ok ⟨⟨s, "SUMMARY", []⟩, hist ++ [("human", message), ("ai", s)],
             some s, none⟩
  else
    match o.retrieval with
    | .error _ =>
      .ok ⟨⟨"Error retrieving relevant documents.", "ERROR", []⟩,
           hist, summaryCache, none⟩
    | .ok docs =>
      let good := docs.filter (fun d => !is_low_quality_text d.page_content)
      let context := joinWith "\n\n"
        (good.map (fun d => "[" ++ toString d.start ++ "s]: " ++ d.page_content))
      match o.generation context with
      | .error _ =>
        .ok ⟨⟨"Error generating an answer.", "ERROR", []⟩,
             hist, summaryCache, some context⟩
      | .ok result =>
        .ok ⟨⟨result, "RAG",
              (good.take 3).map (fun d => (d.start, p.video_id))⟩,
             hist ++ [("human", message), ("ai", result)],
             summaryCache, some context⟩

/- ── Single-video answer (multiVideo.py `answer_question_single`) ────── -/

/-- Oracles for one `answer_question_single` call.  `generation` is the
RAG chain keyed by the evidence `context`; `fallbackGen` is the
metadata-only prompt invocation used when `stats.kept == 0`. -/
structure AnswerOracle where
  retrieval : Except Unit (List Doc)
  generation : String → Except Unit String
  fallbackGen : Except Unit String

/-- Observable outcome of `answer_question_single`. -/
structure AnswerOutcome where
  response : String
  history : List Msg
  genContext : Option String
  fallbackCalled : Bool
deriving DecidableEq, Repr

/-- `answer_question_single` (`multiVideo.py:642-724`).  The
`stats.kept == 0` branch issues the metadata-only fallback prompt; its
provider call sits outside any `try`, so its failure propagates
(`.error`). -/
def answer_question_single (o : AnswerOracle) (p : Processed)
    (hist : List Msg) (user_question : String) :
    Except Unit AnswerOutcome :=
  if p.chunks.isEmpty || !p.vectorstore then
    .ok ⟨"Transcript not available for video " ++ p.video_id ++
         ". Please enable captions or provide a transcript.",
         hist, none, false⟩
  else
    match o.retrieval with
    | .error _ => .ok ⟨"Error retrieving relevant documents.", hist, none, false⟩
    | .ok docs =>
      let fe := format_evidence docs true
      if fe.2.1 = 0 then
        match o.fallbackGen with
        | .error e => .error e
        | .ok c =>
          .ok ⟨c, hist ++ [("human", user_question), ("ai", c)], none, true⟩
      else
        let good := docs.filter (fun d => !is_low_quality_text d.page_content)
        let context := joinWith "\n\n"
          (good.map (fun d => "[" ++ toString d.start ++ "s]: " ++ d.page_content))
        match o.generation context with
        | .error _ => .ok ⟨"Error generating an answer.", hist, some context, false⟩
        | .ok result =>
          .ok ⟨result, hist ++ [("human", user_question), ("ai", result)],
               some context, false⟩

/- ── Comparison (pipeline.py / multiVideo.py `compare_videos`) ───────── -/

/-- Oracles for one comparison turn; `generation` is keyed by the two
evidence blocks. -/
structure CompareOracle where
  retrA : Except Unit (List Doc)
  retrB : Except Unit (List Doc)
  generation : String → String → Except Unit String

/-- Observable outcome of a comparison turn; `genCalled` records
whether the completion provider was invoked. -/
structure CompareOutcome where
  response : String
  intent : String
  history : List Msg
  genCalled : Bool
deriving DecidableEq, Repr

/-- The final generation step of `compare_videos`
(`pipeline.py:402-414`): on success the turn is appended to history; on
failure an ERROR result is returned with the history untouched. -/
def compareFinish (gen : Except Unit String) (hist : List Msg)
    (question : String) : CompareOutcome :=
  match gen with
  | .ok res => ⟨res, "COMPARE", hist ++ [("human", question), ("ai", res)], true⟩
  | .error _ => ⟨"Error during comparison.", "ERROR", hist, true⟩

/-- `compare_videos` (`pipeline.py:342-414`).  Each side's evidence text
defaults to "No evidence available." when its vectorstore is `None` or
its retrieval raises (the `format_evidence` call shares the `try`). -/
def compare_videos (o : CompareOracle) (pA pB : Processed)
    (hist : List Msg) (question : String) : CompareOutcome :=
  if !pA.vectorstore && !pB.vectorstore then
    ⟨"Transcripts missing for both videos. Cannot compare.", "ERROR", hist, false⟩
  else
    let evA := if pA.vectorstore then
        match o.retrA with
        | .ok docs => (format_evidence docs).1
        | .error _ => "No evidence available."
      else "No evidence available."
    let evB := if pB.vectorstore then
        match o.retrB with
        | .ok docs => (format_evidence docs).1
        | .error _ => "No evidence available."
      else "No evidence available."
    compareFinish (o.generation evA evB) hist question

/-- `compare_videos` (`multiVideo.py:790-861`).  The early return fires
when each side has no chunks or no vectorstore; evidence is fetched
through `get_structured_docs` (cache states and contention flags per
side), then quality-filtered by `format_evidence`. -/
def compare_videos_mv (o : CompareOracle) (pA pB : Processed)
    (cacheA1 cacheA2 cacheB1 cacheB2 : Option (List Doc))
    (contA contB : Bool) (hist : List Msg) (question : String) :
    CompareOutcome :=
  if (pA.chunks.isEmpty || !pA.vectorstore) &&
     (pB.chunks.isEmpty || !pB.vectorstore) then
    ⟨"INSUFFICIENT_DATA: Transcripts missing for both videos. Please provide videos with captions or transcripts.",
     "ERROR", hist, false⟩
  else
    let docsA := (get_structured_docs cacheA1 cacheA2 contA
      (if pA.vectorstore then o.retrA else .error ()) 5).1
    let docsB := (get_structured_docs cacheB1 cacheB2 contB
      (if pB.vectorstore then o.retrB else .error ()) 5).1
    let evA := format_evidence docsA true
    let evB := format_evidence docsB true
    match o.generation evA.1 evB.1 with
    | .ok res => ⟨res, "COMPARE", hist ++ [("human", question), ("ai", res)], true⟩
    | .error _ =>
      ⟨"Error: comparison model invocation failed.", "ERROR", hist, true⟩

/- ── Video-id extraction (transcript.py `extract_video_id`) ────────────
`re.search(r"(?:v=|\/|be\/)([0-9A-Za-z_-]{11})", url_or_id)`: the three
alternatives start with the distinct characters `v`, `/`, `b`, so at
each scan position at most one can match and the alternation order
(`v=`, `/`, `be/`) is the order of the `if` chain below; `re.search`
takes the leftmost matching start position. -/

/-- Membership in the character class `[0-9A-Za-z_-]`. -/
def isVidChar (c : Char) : Bool :=
  c.isDigit || c.isAlpha || c = '_' || c = '-'

/-- `cs` begins with the single character `a`. -/
def headIs (cs : List Char) (a : Char) : Bool :=
  match cs with
  | x :: _ => x = a
  | _ => false

/-- `cs` begins with the two characters `a b`. -/
def twoAre (cs : List Char) (a b : Char) : Bool :=
  match cs with
  | x :: y :: _ => x = a && y = b
  | _ => false

/-- `cs` begins with the three characters `a b c`. -/
def threeAre (cs : List Char) (a b c : Char) : Bool :=
  match cs with
  | x :: y :: z :: _ => x = a && y = b && z = c
  | _ => false

/-- Eleven class characters start at the head of `cs` — the body of the
capture group `([0-9A-Za-z_-]{11})`. -/
def groupCheck (cs : List Char) : Bool :=
  decide ((cs.take 11).length = 11) && (cs.take 11).all isVidChar

/-- The capture group at the head of `cs`: 11 class characters, or no
match. -/
def groupOk (cs : List Char) : Option (List Char) :=
  if groupCheck cs then some (cs.take 11) else none

/-- Attempt the whole pattern at the head of `cs`, trying the
alternatives in the pattern's order. -/
def tryMatch (cs : List Char) : Option (List Char) :=
  if twoAre cs 'v' '=' then groupOk (cs.drop 2)
  else if headIs cs '/' then groupOk (cs.drop 1)
  else if threeAre cs 'b' 'e' '/' then groupOk (cs.drop 3)
  else none

/-- Scan for the leftmost match, as `re.search` does. -/
def searchFrom : List Char → Option (List Char)
  | [] => none
  | c :: rest =>
    match tryMatch (c :: rest) with
    | some g => some g
    | none => searchFrom rest

/-- `extract_video_id` (`transcript.py:45-49`): the first capture group
of the leftmost match, or the input unchanged when nothing matches. -/
def extract_video_id (url_or_id : String) : String :=
  match searchFrom url_or_id.data with
  | some g => String.mk g
  | none => url_or_id

/- ── Claim-side predicate for C10 ──────────────────────────────────────
C10 reads the function as: if the input contains an 11-character class
group preceded by `v=`, `/` or `be/`, the first (leftmost) such group
is returned; otherwise the input is returned unchanged. -/

/-- Position `g` is directly preceded by one of `v=`, `/`, `be/`. -/
def preAt (cs : List Char) (g : Nat) : Bool :=
  (decide (1 ≤ g) && headIs (cs.drop (g - 1)) '/') ||
  (decide (2 ≤ g) && twoAre (cs.drop (g - 2)) 'v' '=') ||
  (decide (3 ≤ g) && threeAre (cs.drop (g - 3)) 'b' 'e' '/')

/-- An 11-character `[0-9A-Za-z_-]` group preceded by `v=`, `/` or
`be/` starts at index `g` of `cs`. -/
def vidGroupAt (cs : List Char) (g : Nat) : Bool :=
  preAt cs g && groupCheck (cs.drop g)

/- ── Claim-side predicates and concrete fixtures ─────────────────────── -/

/-- During validation, `text` produced (on attempt `a < 2`) an embedding
that flattened to a finite numeric sequence of length ≥ 100. -/
def GoodEmbed (raw : RawOracle) (t : String) : Prop :=
  ∃ a vec, a < 2 ∧ safeEmbedQuery raw t a = some vec ∧
    100 ≤ vec.length ∧ vec.all PyElem.isFin = true

/-- A document, as produced by the validator, whose text starts with a
segment accepted by the per-chunk success condition (the rest is text
merged in from later failing chunks). -/
def HasGoodHead (succ : String → Bool) (d : Doc) : Prop :=
  ∃ t r, d.page_content = t ++ r ∧ succ t = true

/-- No two documents share a `(video_id, start)` key. -/
def KeysNodup (l : List Doc) : Prop := (l.map dkey).Nodup

/-- `KeysNodup` lifted to an optional cache entry. -/
def OptKeysNodup : Option (List Doc) → Prop
  | none => True
  | some l => KeysNodup l

/-- `d` occurs in `docs` and is the first element of `docs` carrying
its `(video_id, start)` key. -/
def FirstOcc (docs : List Doc) (d : Doc) : Prop :=
  ∃ pre post, docs = pre ++ d :: post ∧ ∀ e ∈ pre, dkey e ≠ dkey d

/-- An embedding provider that always returns a healthy vector of
length 100. -/
def rawGood : RawOracle := fun _ _ => some (List.replicate 100 PyElem.fin)

/-- An embedding provider that always raises. -/
def rawNone : RawOracle := fun _ _ => none

/-- C2 counterexample chunk: 17 characters, one of them a trailing
space that sanitization removes. -/
def c2chunk : Doc := ⟨"hello world okay ", "vid", 0, 1⟩

/-- C5 counterexample chunk: sanitization leaves it unchanged. -/
def c5chunk : Doc := ⟨"hello world okay!", "vid", 0, 1⟩

/-- C4 counterexample: three chunks whose joined length is exactly
1,000,000 = 2 × 500,000 (two joining spaces included). -/
def c4a : String := String.mk (List.replicate 400000 'a')

/-- Second C4 chunk. -/
def c4b : String := String.mk (List.replicate 300000 'b')

/-- Third C4 chunk. -/
def c4c : String := String.mk (List.replicate 299998 'c')

/-- The C4 counterexample chunk list. -/
def c4chunks : List String := [c4a, c4b, c4c]

/-- C4 witness: one chunk of 500,001 characters (not a multiple of the
budget). -/
def w4chunks : List String := [String.mk (List.replicate 500001 'a')]

/-- A retrieved segment the evidence quality filter flags (eight
single-character tokens). -/
def lqDoc : Doc := ⟨"a a a a a a a a", "vid", 0, 5⟩

/-- A processed video with a non-empty chunk list and a live
vectorstore. -/
def p1 : Processed :=
  ⟨"vid", ⟨"vid", "Title", "Chan", "2024-01-01", "desc"⟩,
   [⟨"chunk text here", "vid", 0, 5⟩], 5, true⟩

/-- C1 oracle for `chat_with_video`: intent RAG, retrieval returns only
the low-quality segment, generation echoes its context. -/
def o1 : ChatOracle :=
  ⟨"RAG", .ok [lqDoc], fun ctx => .ok ("GEN:" ++ ctx), .ok "SUMMARY-TEXT"⟩

/-- C1 oracle for `answer_question_single`: same retrieval outcome. -/
def ao1 : AnswerOracle :=
  ⟨.ok [lqDoc], fun ctx => .ok ("GEN:" ++ ctx), .ok "FALLBACK-ANSWER"⟩

/-- C7 witness oracle: retrieval raises. -/
def o7 : ChatOracle :=
  ⟨"RAG", .error (), fun _ => .ok "x", .ok "s"⟩

/-- C8 oracle: all collaborators fail (none is reached on the modelled
path). -/
def o8 : CompareOracle := ⟨.error (), .error (), fun _ _ => .error ()⟩

/-- A processed video with no index (no chunks, vectorstore `None`). -/
def pNoIndex : Processed :=
  ⟨"vidA", ⟨"vidA", "TA", "CA", "2024-01-01", ""⟩, [], 5, false⟩

/-- A second processed video with no index. -/
def pNoIndexB : Processed :=
  ⟨"vidB", ⟨"vidB", "TB", "CB", "2024-02-02", ""⟩, [], 5, false⟩

/-- C6 fixture documents: the first two share a `(video_id, start)`
key. -/
def w6docs : List Doc :=
  [⟨"x", "v", 0, 3⟩, ⟨"y", "v", 0, 4⟩, ⟨"z", "v", 5, 9⟩]

/- ── Theorems ────────────────────────────────────────────────────────── -/

/-- `log2floorAux` computes the floor binary logarithm whenever it has
enough fuel. -/
theorem log2floorAux_spec : ∀ (fuel n : Nat), n ≤ fuel → 1 ≤ n →
    2 ^ (log2floorAux fuel n) ≤ n ∧ n < 2 ^ (log2floorAux fuel n + 1) := by
  intro fuel
  induction fuel with
  | zero => intro n hn h1; omega
  | succ fuel ih =>
    intro n hn h1
    by_cases h2 : n < 2
    · have hx : n = 1 := by omega
      subst hx
      simp [log2floorAux]
    · have hd1 : 1 ≤ n / 2 := by omega
      have hdf : n / 2 ≤ fuel := by omega
      obtain ⟨ha, hb⟩ := ih (n / 2) hdf hd1
      have hres : log2floorAux (fuel + 1) n = log2floorAux fuel (n / 2) + 1 := by
        simp [log2floorAux, h2]
      rw [hres]
      have e1 : 2 ^ (log2floorAux fuel (n / 2) + 1) =
          2 * 2 ^ (log2floorAux fuel (n / 2)) := by
        rw [pow_succ]; ring
      have e2 : 2 ^ (log2floorAux fuel (n / 2) + 1 + 1) =
          4 * 2 ^ (log2floorAux fuel (n / 2)) := by
        rw [pow_succ, pow_succ]; ring
      rw [e1, e2]
      rw [e1] at hb
      omega

/-- The fuel-based logarithm agrees with `Nat.log 2`. -/
theorem log2floor_eq_log (n : Nat) : log2floor n = Nat.log 2 n := by
  rcases Nat.eq_zero_or_pos n with h | h
  · subst h
    simp [log2floor, log2floorAux]
  · obtain ⟨h1, h2⟩ := log2floorAux_spec n n le_rfl h
    exact (Nat.log_eq_of_pow_le_of_lt_pow h1 h2).symm

/-- C3, counterexample: at 23 chunks the code computes
`int(log2(23) * 1.5) = int(6.785…) = 6`, while the claimed formula
`round(log2(23) * 1.5) = 7`; neither hits the clamp, so the claimed
`dynamic_k` differs from the code's. -/
theorem c3_counterexample : dynamic_k 23 = 6 ∧ dynamic_k_round 23 = 7 := by
  decide

/-- C3, amended: `dynamic_k` equals `min(num_chunks, 5)` below 20
chunks and `clamp(trunc(log2(num_chunks)·1.5), 5, 10)
= clamp(⌊log2(num_chunks³)/2⌋, 5, 10)` at 20 or more — `int()`
truncates rather than rounds. -/
theorem c3_amended (n : Nat) :
    (n < 20 → dynamic_k n = min n 5) ∧
    (20 ≤ n → dynamic_k n = max 5 (min 10 (Nat.log 2 (n ^ 3) / 2))) := by
  constructor
  · intro h
    simp [dynamic_k, h]
  · intro h
    unfold dynamic_k
    rw [if_neg (by omega), log2floor_eq_log]

/-- C3 witness: the amended characterization at 7 and 23 chunks. -/
theorem c3_witness :
    dynamic_k 7 = min 7 5 ∧
    dynamic_k 23 = max 5 (min 10 (Nat.log 2 (23 ^ 3) / 2)) :=
  ⟨(c3_amended 7).1 (by decide), (c3_amended 23).2 (by decide)⟩

/-- C9: `dynamic_k` equals `min(num_chunks, 5)` below 20 chunks and is
non-decreasing in `num_chunks` from 20 on. -/
theorem c9_dynamic_k_monotone :
    (∀ n, n < 20 → dynamic_k n = min n 5) ∧
    (∀ m n, 20 ≤ m → m ≤ n → dynamic_k m ≤ dynamic_k n) := by
  constructor
  · intro n h
    simp [dynamic_k, h]
  · intro m n hm hmn
    unfold dynamic_k
    rw [if_neg (by omega), if_neg (by omega)]
    have hlog : log2floor (m ^ 3) ≤ log2floor (n ^ 3) := by
      rw [log2floor_eq_log, log2floor_eq_log]
      exact Nat.log_mono_right (Nat.pow_le_pow_left hmn 3)
    exact max_le_max le_rfl (min_le_min le_rfl (Nat.div_le_div_right hlog))

/-- C9 witness: the two conjuncts at 7 and at 20 ≤ 100. -/
theorem c9_witness : dynamic_k 7 = min 7 5 ∧ dynamic_k 20 ≤ dynamic_k 100 :=
  ⟨c9_dynamic_k_monotone.1 7 (by decide),
   c9_dynamic_k_monotone.2 20 100 (by decide) (by decide)⟩

/-- `String.mk` length. -/
theorem length_mk (l : List Char) : (String.mk l).length = l.length := rfl

/-- Length of a single space. -/
theorem len_space : (" " : String).length = 1 := rfl

/-- Length of the first C4 chunk. -/
theorem c4a_len : c4a.length = 400000 := by
  rw [c4a, length_mk, List.length_replicate]

/-- Length of the second C4 chunk. -/
theorem c4b_len : c4b.length = 300000 := by
  rw [c4b, length_mk, List.length_replicate]

/-- Length of the third C4 chunk. -/
theorem c4c_len : c4c.length = 299998 := by
  rw [c4c, length_mk, List.length_replicate]

/-- Joined length of the C4 counterexample (exactly twice the
budget). -/
theorem c4_total_len : (joinWith " " c4chunks).length = 1000000 := by
  show (c4a ++ " " ++ (c4b ++ " " ++ c4c)).length = 1000000
  rw [String.length_append, String.length_append, String.length_append,
      String.length_append, c4a_len, c4b_len, c4c_len, len_space]

/-- Sampling the C4 chunks at stride 3. -/
theorem c4_everyNth3 : everyNth c4chunks 3 = [c4a] := rfl

/-- Sampling the C4 chunks at stride 2. -/
theorem c4_everyNth2 : everyNth c4chunks 2 = [c4a, c4c] := rfl

/-- The code's sampled text on the C4 counterexample
(`step = 1000000 // 500000 + 1 = 3`). -/
theorem c4_code_eq : summary_final_text c4chunks = c4a := by
  have harith : (1000000 : Nat) / 500000 + 1 = 3 := by norm_num
  show (if (joinWith " " c4chunks).length > 500000 then
          joinWith " " (everyNth c4chunks ((joinWith " " c4chunks).length / 500000 + 1))
        else joinWith " " c4chunks) = c4a
  rw [c4_total_len, if_pos (by norm_num : (1000000 : Nat) > 500000), harith,
      c4_everyNth3]
  rfl

/-- The claimed sampled text on the C4 counterexample
(`stride = ceil(1000000 / 500000) = 2`). -/
theorem c4_spec_eq : summary_final_text_spec c4chunks = c4a ++ " " ++ c4c := by
  have harith : ((1000000 : Nat) + 500000 - 1) / 500000 = 2 := by norm_num
  show (if (joinWith " " c4chunks).length > 500000 then
          joinWith " " (everyNth c4chunks (((joinWith " " c4chunks).length + 500000 - 1) / 500000))
        else joinWith " " c4chunks) = c4a ++ " " ++ c4c
  rw [c4_total_len, if_pos (by norm_num : (1000000 : Nat) > 500000), harith,
      c4_everyNth2]
  rfl

/-- C4, counterexample: when the joined length is an exact multiple of
the 500,000-character budget the code samples at stride
`len // budget + 1`, one more than the claimed `ceil(len/budget)`, so
the prepared summary text differs. -/
theorem c4_counterexample :
    summary_final_text c4chunks ≠ summary_final_text_spec c4chunks := by
  rw [c4_code_eq, c4_spec_eq]
  intro h
  have h2 := congrArg String.length h
  rw [c4a_len, String.length_append, String.length_append, c4a_len, c4c_len,
      len_space] at h2
  exact absurd h2 (by norm_num)

/-- C4, amended: over budget the code samples at stride
`len // budget + 1`, which equals `ceil(len/budget)` whenever the
budget does not divide `len` exactly (within budget the full joined
text is used, per the definition). -/
theorem c4_amended : ∀ chunks : List String,
    500000 < (joinWith " " chunks).length →
    ¬ (500000 ∣ (joinWith " " chunks).length) →
    summary_final_text chunks =
      joinWith " " (everyNth chunks
        (((joinWith " " chunks).length + 500000 - 1) / 500000)) := by
  intro chunks h1 h2
  have hstep : ((joinWith " " chunks).length + 500000 - 1) / 500000 =
      (joinWith " " chunks).length / 500000 + 1 := by omega
  rw [hstep]
  show (if (joinWith " " chunks).length > 500000 then
          joinWith " " (everyNth chunks ((joinWith " " chunks).length / 500000 + 1))
        else joinWith " " chunks) =
      joinWith " " (everyNth chunks ((joinWith " " chunks).length / 500000 + 1))
  rw [if_pos h1]

/-- C4 witness: a 500,001-character single chunk exceeds the budget,
is not a multiple of it, and the code then samples at the ceiling
stride. -/
theorem c4_witness :
    500000 < (joinWith " " w4chunks).length ∧
    ¬ (500000 ∣ (joinWith " " w4chunks).length) ∧
    summary_final_text w4chunks = joinWith " " (everyNth w4chunks
      (((joinWith " " w4chunks).length + 500000 - 1) / 500000)) := by
  have hlen : (joinWith " " w4chunks).length = 500001 := by
    show (String.mk (List.replicate 500001 'a')).length = 500001
    rw [length_mk, List.length_replicate]
  exact ⟨by omega, by omega, c4_amended w4chunks (by omega) (by omega)⟩

/-- `docTotalLen` of a cons. -/
theorem docTotalLen_cons (d : Doc) (l : List Doc) :
    docTotalLen (d :: l) = d.page_content.length + docTotalLen l := by
  simp [docTotalLen]

/-- `docTotalLen` is invariant under reversal. -/
theorem docTotalLen_reverse (l : List Doc) :
    docTotalLen l.reverse = docTotalLen l := by
  simp [docTotalLen, List.sum_reverse]

/-- `survivorLen` of a cons. -/
theorem survivorLen_cons (nfkc : String → String) (isCatC : Char → Bool)
    (d : Doc) (rest : List Doc) :
    survivorLen nfkc isCatC (d :: rest) =
      if survivesFilters isCatC d then
        (finalText nfkc isCatC d).length + survivorLen nfkc isCatC rest
      else survivorLen nfkc isCatC rest := by
  by_cases h : survivesFilters isCatC d <;> simp [survivorLen, List.filter_cons, h]

/-- `noPredFailLenGo` of a cons. -/
theorem noPredFailLenGo_cons (nfkc : String → String) (isCatC : Char → Bool)
    (succ : String → Bool) (hp : Bool) (c : Doc) (rest : List Doc) :
    noPredFailLenGo nfkc isCatC succ hp (c :: rest) =
      if survivesFilters isCatC c then
        (if succ (finalText nfkc isCatC c) then
          noPredFailLenGo nfkc isCatC succ true rest
         else if hp then noPredFailLenGo nfkc isCatC succ true rest
         else (finalText nfkc isCatC c).length +
           noPredFailLenGo nfkc isCatC succ false rest)
      else noPredFailLenGo nfkc isCatC succ hp rest := rfl

/-- One step of the validator, phrased through `survivesFilters` /
`finalText`. -/
theorem validateGo_cons (nfkc : String → String) (isCatC : Char → Bool)
    (succ : String → Bool) (racc : List Doc) (c : Doc) (rest : List Doc) :
    validateGo nfkc isCatC succ racc (c :: rest) =
      if survivesFilters isCatC c then
        (if succ (finalText nfkc isCatC c) then
          validateGo nfkc isCatC succ
            ({ c with page_content := finalText nfkc isCatC c } :: racc) rest
         else
          match racc with
          | [] => validateGo nfkc isCatC succ [] rest
          | prev :: racc2 =>
            validateGo nfkc isCatC succ
              ({ prev with page_content :=
                  prev.page_content ++ " " ++ finalText nfkc isCatC c } :: racc2)
              rest)
      else validateGo nfkc isCatC succ racc rest := by
  by_cases h0 : (pyStrip c.page_content).isEmpty
  · have hsf : survivesFilters isCatC c = false := by
      simp [survivesFilters, h0]
    rw [hsf]
    simp [validateGo, h0]
  · by_cases h15 : (sanitizePre isCatC c.page_content).length < 15
    · have hsf : survivesFilters isCatC c = false := by
        simp [survivesFilters, h15]
      rw [hsf]
      simp only [Bool.false_eq_true, if_false]
      simp only [validateGo]
      rw [if_neg (by simpa using h0)]
      rw [if_pos (by simpa [sanitizePre] using h15)]
    · have hsf : survivesFilters isCatC c = true := by
        simp [survivesFilters, h0]
        omega
      rw [hsf]
      simp only [if_true]
      simp only [validateGo]
      rw [if_neg (by simpa using h0)]
      rw [if_neg (by simpa [sanitizePre] using h15)]
      rfl

/-- Core inequality for C2: relative to any accumulator, the validator
never loses sanitised characters beyond the no-predecessor drops. -/
theorem validateGo_ge (nfkc : String → String) (isCatC : Char → Bool)
    (succ : String → Bool) :
    ∀ (chunks racc : List Doc),
      docTotalLen racc + survivorLen nfkc isCatC chunks ≤
        docTotalLen (validateGo nfkc isCatC succ racc chunks) +
        noPredFailLenGo nfkc isCatC succ (!racc.isEmpty) chunks := by
  intro chunks
  induction chunks with
  | nil =>
    intro racc
    simp [validateGo, noPredFailLenGo, survivorLen, docTotalLen_reverse]
  | cons c rest ih =>
    intro racc
    rw [validateGo_cons, survivorLen_cons, noPredFailLenGo_cons]
    by_cases hsf : survivesFilters isCatC c
    · rw [if_pos hsf, if_pos hsf, if_pos hsf]
      by_cases hs : succ (finalText nfkc isCatC c)
      · rw [if_pos hs, if_pos hs]
        have h := ih ({ c with page_content := finalText nfkc isCatC c } :: racc)
        rw [docTotalLen_cons] at h
        simp only [List.isEmpty_cons, Bool.not_false] at h
        omega
      · rw [if_neg hs, if_neg hs]
        rcases racc with _ | ⟨prev, racc2⟩
        · simp only [List.isEmpty_nil, Bool.not_true, Bool.false_eq_true, if_false]
          have h := ih []
          simp only [List.isEmpty_nil, Bool.not_true] at h
          have hz : docTotalLen ([] : List Doc) = 0 := rfl
          rw [hz] at h ⊢
          omega
        · simp only [List.isEmpty_cons, Bool.not_false, if_true]
          have h := ih ({ prev with page_content :=
            prev.page_content ++ " " ++ finalText nfkc isCatC c } :: racc2)
          rw [docTotalLen_cons] at h
          simp only [List.isEmpty_cons, Bool.not_false] at h
          rw [docTotalLen_cons]
          have hlen : ({ prev with page_content :=
              prev.page_content ++ " " ++ finalText nfkc isCatC c } :
              Doc).page_content.length =
              prev.page_content.length + 1 + (finalText nfkc isCatC c).length := by
            show (prev.page_content ++ " " ++ finalText nfkc isCatC c).length =
              prev.page_content.length + 1 + (finalText nfkc isCatC c).length
            rw [String.length_append, String.length_append, len_space]
          rw [hlen] at h
          omega
    · rw [if_neg hsf, if_neg hsf, if_neg hsf]
      exact ih racc

/-- C2, counterexample: a single chunk whose 17 characters include a
trailing space; it embeds successfully, no chunk fails validation
(`noPredFailLen = 0`), yet the output carries only 16 characters —
sanitization itself loses input characters, so output total ≥ input
total − no-predecessor losses fails. -/
theorem c2_counterexample :
    docTotalLen (validate_chunks_for_embeddings id (fun _ => false) rawGood [c2chunk]) <
      docTotalLen [c2chunk] -
        noPredFailLen id (fun _ => false) (chunkSuccess rawGood) [c2chunk] := by
  decide

/-- C2, amended: the total character count of all output
ValidatedChunks is ≥ the total SANITISED character count of the chunks
that pass the noise filters (trim, control-stripping, whitespace
collapsing, ≥ 15 length, NFKC) minus exactly the sanitised content of
chunks that failed embedding validation with no predecessor
ValidatedChunk to merge into.  (Raw input characters can additionally
be lost to sanitization and to the sub-15-character noise filter.) -/
theorem c2_amended (nfkc : String → String) (isCatC : Char → Bool)
    (raw : RawOracle) (chunks : List Doc) :
    survivorLen nfkc isCatC chunks ≤
      docTotalLen (validate_chunks_for_embeddings nfkc isCatC raw chunks) +
      noPredFailLen nfkc isCatC (chunkSuccess raw) chunks := by
  have h := validateGo_ge nfkc isCatC (chunkSuccess raw) chunks []
  have hz : docTotalLen ([] : List Doc) = 0 := rfl
  rw [hz, Nat.zero_add] at h
  exact h

/-- The validator's success condition implies the claimed embedding
quality (backend version). -/
theorem chunkSuccess_goodEmbed (raw : RawOracle) (t : String) :
    chunkSuccess raw t = true → GoodEmbed raw t := by
  intro h
  rw [chunkSuccess, Bool.or_eq_true] at h
  rcases h with h | h
  · cases hq : safeEmbedQuery raw t 0 with
    | none => rw [hq] at h; exact absurd h (by simp)
    | some vec =>
      rw [hq] at h
      simp only [attemptOk, Bool.and_eq_true, decide_eq_true_eq] at h
      exact ⟨0, vec, by omega, hq, h.1.2, h.2⟩
  · cases hq : safeEmbedQuery raw t 1 with
    | none => rw [hq] at h; exact absurd h (by simp)
    | some vec =>
      rw [hq] at h
      simp only [attemptOk, Bool.and_eq_true, decide_eq_true_eq] at h
      exact ⟨1, vec, by omega, hq, h.1.2, h.2⟩

/-- Validator invariant, generic in the success condition: every output
chunk's text starts with a segment the success condition accepted. -/
theorem validateGo_goodHead (nfkc : String → String) (isCatC : Char → Bool)
    (succ : String → Bool) :
    ∀ (chunks racc : List Doc), (∀ d ∈ racc, HasGoodHead succ d) →
      ∀ d ∈ validateGo nfkc isCatC succ racc chunks, HasGoodHead succ d := by
  intro chunks
  induction chunks with
  | nil =>
    intro racc hracc d hd
    rw [validateGo] at hd
    exact hracc d (List.mem_reverse.mp hd)
  | cons c rest ih =>
    intro racc hracc d hd
    rw [validateGo_cons] at hd
    by_cases hsf : survivesFilters isCatC c
    · rw [if_pos hsf] at hd
      by_cases hs : succ (finalText nfkc isCatC c)
      · rw [if_pos hs] at hd
        refine ih _ ?_ d hd
        intro e he
        rcases List.mem_cons.mp he with rfl | he2
        · exact ⟨finalText nfkc isCatC c, "", (String.append_empty _).symm, hs⟩
        · exact hracc e he2
      · rw [if_neg hs] at hd
        rcases racc with _ | ⟨prev, racc2⟩
        · exact ih [] (by simp) d hd
        · refine ih _ ?_ d hd
          intro e he
          rcases List.mem_cons.mp he with rfl | he2
          · obtain ⟨t, r, hpc, hts⟩ := hracc prev (List.mem_cons_self _ _)
            refine ⟨t, r ++ " " ++ finalText nfkc isCatC c, ?_, hts⟩
            show prev.page_content ++ " " ++ finalText nfkc isCatC c =
              t ++ (r ++ " " ++ finalText nfkc isCatC c)
            rw [hpc, String.append_assoc t r " ",
                String.append_assoc t (r ++ " ") (finalText nfkc isCatC c)]
          · exact hracc e (List.mem_cons_of_mem _ he2)
    · rw [if_neg hsf] at hd
      exact ih racc hracc d hd

/-- C5, counterexample: in the `multiVideo.py` validator, with a
provider that always raises, `SafeOllamaEmbeddings.embed_query` falls
back to `[0.0]`, which passes the multiVideo checks (non-empty and
finite — there is no length ≥ 100 check).  The chunk is validated
although every embedding produced for its text during validation had
length 1 < 100, and it absorbed no merged text. -/
theorem c5_counterexample :
    validate_chunks_mv id (fun _ => false) rawNone [c5chunk] =
      [Doc.mk "hello world okay!" "vid" 0 1] ∧
    (safeEmbedQueryMV rawNone "hello world okay!" 0).length < 100 ∧
    (safeEmbedQueryMV rawNone "hello world okay!" 1).length < 100 := by
  decide

/-- C5, amended: in the backend validator every output ValidatedChunk's
text starts with a segment that, during validation, produced an
embedding flattening to a finite numeric sequence of length ≥ 100 (the
rest of the text was merged in from failed chunks); the multiVideo
validator guarantees only a non-empty finite embedding. -/
theorem c5_amended (nfkc : String → String) (isCatC : Char → Bool)
    (raw : RawOracle) (chunks : List Doc) :
    ∀ d ∈ validate_chunks_for_embeddings nfkc isCatC raw chunks,
      ∃ t r, d.page_content = t ++ r ∧ GoodEmbed raw t := by
  intro d hd
  obtain ⟨t, r, h1, h2⟩ :=
    validateGo_goodHead nfkc isCatC (chunkSuccess raw) chunks [] (by simp) d hd
  exact ⟨t, r, h1, chunkSuccess_goodEmbed raw t h2⟩

/-- C5 witness: the amended invariant applied to a concrete validated
chunk under the healthy provider. -/
theorem c5_witness :
    ∃ t r, (Doc.mk "hello world okay" "vid" 0 1).page_content = t ++ r ∧
      GoodEmbed rawGood t :=
  c5_amended id (fun _ => false) rawGood [c2chunk]
    (Doc.mk "hello world okay" "vid" 0 1) (by decide)

/-- Elements produced by `dedupAll` carry keys outside `seen`. -/
theorem dedupAll_key_notin : ∀ (docs : List Doc) (seen : List (String × Nat))
    (d : Doc), d ∈ dedupAll seen docs → dkey d ∉ seen := by
  intro docs
  induction docs with
  | nil => intro seen d hd; simp [dedupAll] at hd
  | cons c rest ih =>
    intro seen d hd
    simp only [dedupAll] at hd
    by_cases hc : dkey c ∈ seen
    · rw [if_pos hc] at hd
      exact ih seen d hd
    · rw [if_neg hc] at hd
      rcases List.mem_cons.mp hd with rfl | hd2
      · exact hc
      · intro hmem
        exact ih _ d hd2 (List.mem_cons_of_mem _ hmem)

/-- `dedupAll` yields pairwise-distinct keys. -/
theorem dedupAll_nodup : ∀ (docs : List Doc) (seen : List (String × Nat)),
    ((dedupAll seen docs).map dkey).Nodup := by
  intro docs
  induction docs with
  | nil => intro seen; simp [dedupAll]
  | cons c rest ih =>
    intro seen
    simp only [dedupAll]
    by_cases hc : dkey c ∈ seen
    · rw [if_pos hc]; exact ih seen
    · rw [if_neg hc]
      simp only [List.map_cons, List.nodup_cons]
      refine ⟨?_, ih _⟩
      intro hmem
      obtain ⟨e, he, hke⟩ := List.mem_map.mp hmem
      exact dedupAll_key_notin rest _ e he (by rw [hke]; exact List.mem_cons_self _ _)

/-- Every element `dedupAll` keeps is the first occurrence of its key. -/
theorem dedupAll_firstocc : ∀ (docs : List Doc) (seen : List (String × Nat))
    (d : Doc), d ∈ dedupAll seen docs → FirstOcc docs d := by
  intro docs
  induction docs with
  | nil => intro seen d hd; simp [dedupAll] at hd
  | cons c rest ih =>
    intro seen d hd
    simp only [dedupAll] at hd
    by_cases hc : dkey c ∈ seen
    · rw [if_pos hc] at hd
      obtain ⟨pre, post, hsplit, hpre⟩ := ih seen d hd
      have hdk : dkey d ∉ seen := dedupAll_key_notin rest seen d hd
      refine ⟨c :: pre, post, by rw [hsplit]; rfl, ?_⟩
      intro e he
      rcases List.mem_cons.mp he with rfl | he2
      · intro heq; exact hdk (heq ▸ hc)
      · exact hpre e he2
    · rw [if_neg hc] at hd
      rcases List.mem_cons.mp hd with rfl | hd2
      · exact ⟨[], rest, rfl, by simp⟩
      · obtain ⟨pre, post, hsplit, hpre⟩ := ih _ d hd2
        have hdk : dkey d ∉ dkey c :: seen := dedupAll_key_notin rest _ d hd2
        refine ⟨c :: pre, post, by rw [hsplit]; rfl, ?_⟩
        intro e he
        rcases List.mem_cons.mp he with rfl | he2
        · intro heq; exact hdk (heq ▸ List.mem_cons_self _ _)
        · exact hpre e he2

/-- Elements produced by `dedupTake` carry keys outside `seen`. -/
theorem dedupTake_key_notin : ∀ (docs : List Doc) (seen : List (String × Nat))
    (k : Nat) (d : Doc), d ∈ dedupTake seen k docs → dkey d ∉ seen := by
  intro docs
  induction docs with
  | nil => intro seen k d hd; simp [dedupTake] at hd
  | cons c rest ih =>
    intro seen k d hd
    simp only [dedupTake] at hd
    by_cases hc : dkey c ∈ seen
    · rw [if_pos hc] at hd
      exact ih seen k d hd
    · rw [if_neg hc] at hd
      by_cases hb : k ≤ seen.length + 1
      · rw [if_pos hb] at hd
        rcases List.mem_cons.mp hd with rfl | hd2
        · exact hc
        · simp at hd2
      · rw [if_neg hb] at hd
        rcases List.mem_cons.mp hd with rfl | hd2
        · exact hc
        · intro hmem
          exact ih _ k d hd2 (List.mem_cons_of_mem _ hmem)

/-- `dedupTake` yields pairwise-distinct keys. -/
theorem dedupTake_nodup : ∀ (docs : List Doc) (seen : List (String × Nat))
    (k : Nat), ((dedupTake seen k docs).map dkey).Nodup := by
  intro docs
  induction docs with
  | nil => intro seen k; simp [dedupTake]
  | cons c rest ih =>
    intro seen k
    simp only [dedupTake]
    by_cases hc : dkey c ∈ seen
    · rw [if_pos hc]; exact ih seen k
    · rw [if_neg hc]
      by_cases hb : k ≤ seen.length + 1
      · rw [if_pos hb]; simp
      · rw [if_neg hb]
        simp only [List.map_cons, List.nodup_cons]
        refine ⟨?_, ih _ k⟩
        intro hmem
        obtain ⟨e, he, hke⟩ := List.mem_map.mp hmem
        exact dedupTake_key_notin rest _ k e he
          (by rw [hke]; exact List.mem_cons_self _ _)

/-- Every element `dedupTake` keeps is the first occurrence of its
key. -/
theorem dedupTake_firstocc : ∀ (docs : List Doc) (seen : List (String × Nat))
    (k : Nat) (d : Doc), d ∈ dedupTake seen k docs → FirstOcc docs d := by
  intro docs
  induction docs with
  | nil => intro seen k d hd; simp [dedupTake] at hd
  | cons c rest ih =>
    intro seen k d hd
    simp only [dedupTake] at hd
    by_cases hc : dkey c ∈ seen
    · rw [if_pos hc] at hd
      obtain ⟨pre, post, hsplit, hpre⟩ := ih seen k d hd
      have hdk : dkey d ∉ seen := dedupTake_key_notin rest seen k d hd
      refine ⟨c :: pre, post, by rw [hsplit]; rfl, ?_⟩
      intro e he
      rcases List.mem_cons.mp he with rfl | he2
      · intro heq; exact hdk (heq ▸ hc)
      · exact hpre e he2
    · rw [if_neg hc] at hd
      by_cases hb : k ≤ seen.length + 1
      · rw [if_pos hb] at hd
        rcases List.mem_cons.mp hd with rfl | hd2
        · exact ⟨[], rest, rfl, by simp⟩
        · simp at hd2
      · rw [if_neg hb] at hd
        rcases List.mem_cons.mp hd with rfl | hd2
        · exact ⟨[], rest, rfl, by simp⟩
        · obtain ⟨pre, post, hsplit, hpre⟩ := ih _ k d hd2
          have hdk : dkey d ∉ dkey c :: seen := dedupTake_key_notin rest _ k d hd2
          refine ⟨c :: pre, post, by rw [hsplit]; rfl, ?_⟩
          intro e he
          rcases List.mem_cons.mp he with rfl | he2
          · intro heq; exact hdk (heq ▸ List.mem_cons_self _ _)
          · exact hpre e he2

/-- `dedupTake` respects the bound as long as the bound has not been
reached when it starts. -/
theorem dedupTake_len : ∀ (docs : List Doc) (seen : List (String × Nat))
    (k : Nat), seen.length < k → (dedupTake seen k docs).length + seen.length ≤ k := by
  intro docs
  induction docs with
  | nil => intro seen k hk; simp [dedupTake]; omega
  | cons c rest ih =>
    intro seen k hk
    simp only [dedupTake]
    by_cases hc : dkey c ∈ seen
    · rw [if_pos hc]; exact ih seen k hk
    · rw [if_neg hc]
      by_cases hb : k ≤ seen.length + 1
      · rw [if_pos hb]; simp; omega
      · rw [if_neg hb]
        have h := ih (dkey c :: seen) k (by simp; omega)
        simp only [List.length_cons] at h ⊢
        omega

/-- `KeysNodup` survives `take`. -/
theorem keysNodup_take (l : List Doc) (n : Nat) (h : KeysNodup l) :
    KeysNodup (l.take n) := by
  rw [KeysNodup, List.map_take]
  exact List.Nodup.sublist (List.take_sublist n _) h

/-- C6, counterexample: with `k = 0` the lock-holding path checks
`len(final) >= k` only after appending, so a non-empty retrieval still
returns one candidate, violating the `k` bound. -/
theorem c6_counterexample :
    ¬ ((get_structured_docs none none false
        (Except.ok [Doc.mk "x" "v" 0 3]) 0).1.length ≤ 0) := by
  decide

/-- C6, amended: for every requested bound `k ≥ 1` (at `k = 0` the
lock-holding path still returns one candidate), and provided every
cached list is itself deduplicated (which the function's own writes
maintain), the returned sequence has pairwise-distinct
`(video_id, start)` keys, length at most `k`, any published cache entry
is deduplicated, and on a fresh retrieval every returned candidate is
the first-seen candidate of its key. -/
theorem c6_amended :
    ∀ (cache1 cache2 : Option (List Doc)) (contended : Bool)
      (retrieve : Except Unit (List Doc)) (k : Nat),
      1 ≤ k → OptKeysNodup cache1 → OptKeysNodup cache2 →
      KeysNodup (get_structured_docs cache1 cache2 contended retrieve k).1 ∧
      (get_structured_docs cache1 cache2 contended retrieve k).1.length ≤ k ∧
      OptKeysNodup (get_structured_docs cache1 cache2 contended retrieve k).2 ∧
      (cache1 = none → cache2 = none →
        ∀ docs, retrieve = Except.ok docs →
          ∀ d ∈ (get_structured_docs cache1 cache2 contended retrieve k).1,
            FirstOcc docs d) := by
  intro cache1 cache2 contended retrieve k hk h1 h2
  rcases cache1 with _ | cached1
  · rcases contended with _ | _
    · -- lock acquired
      rcases retrieve with e | docs
      · have hg : get_structured_docs none cache2 false (Except.error e) k =
            (dedupTake [] k [], some (dedupTake [] k [])) := rfl
        rw [hg]
        refine ⟨dedupTake_nodup [] [] k, ?_, dedupTake_nodup [] [] k, ?_⟩
        · have h := dedupTake_len [] [] k (by simpa using hk)
          simpa using h
        · intro _ _ docs hdocs
          exact absurd hdocs (by simp)
      · have hg : get_structured_docs none cache2 false (Except.ok docs) k =
            (dedupTake [] k docs, some (dedupTake [] k docs)) := rfl
        rw [hg]
        refine ⟨dedupTake_nodup docs [] k, ?_, dedupTake_nodup docs [] k, ?_⟩
        · have h := dedupTake_len docs [] k (by simpa using hk)
          simpa using h
        · intro _ _ docs0 hdocs d hd
          have hd0 : docs0 = docs := by
            injection hdocs with h
            exact h.symm
          subst hd0
          exact dedupTake_firstocc docs0 [] k d hd
    · -- contention fallback
      rcases cache2 with _ | cached2
      · rcases retrieve with e | docs
        · have hg : get_structured_docs none none true (Except.error e) k =
              ([], none) := rfl
          rw [hg]
          exact ⟨by simp [KeysNodup], by simp, trivial,
                 by intro _ _ docs hdocs; exact absurd hdocs (by simp)⟩
        · have hg : get_structured_docs none none true (Except.ok docs) k =
              ((dedupAll [] docs).take k, some ((dedupAll [] docs).take k)) := rfl
          rw [hg]
          refine ⟨keysNodup_take _ k (dedupAll_nodup docs []),
                  List.length_take_le k _,
                  keysNodup_take _ k (dedupAll_nodup docs []), ?_⟩
          intro _ _ docs0 hdocs d hd
          have hd0 : docs0 = docs := by
            injection hdocs with h
            exact h.symm
          subst hd0
          exact dedupAll_firstocc docs0 [] d (List.mem_of_mem_take hd)
      · have hg : get_structured_docs none (some cached2) true retrieve k =
            (cached2.take k, none) := rfl
        rw [hg]
        refine ⟨keysNodup_take _ k h2, List.length_take_le k _, trivial, ?_⟩
        intro _ hcc
        exact absurd hcc (by simp)
  · have hg : get_structured_docs (some cached1) cache2 contended retrieve k =
        (cached1.take k, none) := rfl
    rw [hg]
    refine ⟨keysNodup_take _ k h1, List.length_take_le k _, trivial, ?_⟩
    intro hcc
    exact absurd hcc (by simp)

/-- C6 witness: a fresh uncontended retrieval with one duplicated key
and `k = 2`. -/
theorem c6_witness :
    KeysNodup (get_structured_docs none none false (Except.ok w6docs) 2).1 ∧
    (get_structured_docs none none false (Except.ok w6docs) 2).1.length ≤ 2 ∧
    OptKeysNodup (get_structured_docs none none false (Except.ok w6docs) 2).2 ∧
    ((none : Option (List Doc)) = none → (none : Option (List Doc)) = none →
      ∀ docs : List Doc,
        (Except.ok w6docs : Except Unit (List Doc)) = Except.ok docs →
        ∀ d ∈ (get_structured_docs none none false (Except.ok w6docs) 2).1,
          FirstOcc docs d) :=
  c6_amended none none false (Except.ok w6docs) 2 (by decide) trivial trivial

/-- An ERROR-intent `compareFinish` leaves the history unchanged. -/
theorem compareFinish_error (gen : Except Unit String) (hist : List Msg)
    (q : String) : (compareFinish gen hist q).intent = "ERROR" →
    (compareFinish gen hist q).history = hist := by
  cases gen with
  | ok res => intro h; simp [compareFinish] at h
  | error e => intro _; rfl

/-- C7: a chat or comparison turn that returns an ERROR-intent result
leaves the session history unchanged — neither the user message nor an
assistant message is appended. -/
theorem c7_error_results_leave_history :
    (∀ (o : ChatOracle) (p : Processed) (hist : List Msg) (sc : Option String)
        (message : String) (out : ChatOutcome),
        chat_with_video o p hist sc message = Except.ok out →
        out.result.intent = "ERROR" → out.history = hist) ∧
    (∀ (o : CompareOracle) (pA pB : Processed) (hist : List Msg) (q : String),
        (compare_videos o pA pB hist q).intent = "ERROR" →
        (compare_videos o pA pB hist q).history = hist) := by
  constructor
  · intro o p hist sc message out hok herr
    unfold chat_with_video at hok
    split at hok
    · injection hok with h
      subst h
      rfl
    · split at hok
      · split at hok
        · injection hok with h
          subst h
          simp at herr
        · split at hok
          · simp at hok
          · injection hok with h
            subst h
            simp at herr
      · split at hok
        · injection hok with h
          subst h
          rfl
        · dsimp only at hok
          split at hok
          · injection hok with h
            subst h
            rfl
          · injection hok with h
            subst h
            simp at herr
  · intro o pA pB hist q herr
    unfold compare_videos at herr ⊢
    by_cases hb : (!pA.vectorstore && !pB.vectorstore) = true
    · rw [if_pos hb]
    · rw [if_neg hb] at herr ⊢
      exact compareFinish_error _ hist q herr

/-- C7 witness: a retrieval failure yields an ERROR result whose
recorded history equals the input history. -/
theorem c7_witness :
    (ChatOutcome.mk (ChatResult.mk "Error retrieving relevant documents." "ERROR" [])
        [("human", "hi")] none none).history = [("human", "hi")] :=
  c7_error_results_leave_history.1 o7 p1 [("human", "hi")] none "q"
    (ChatOutcome.mk (ChatResult.mk "Error retrieving relevant documents." "ERROR" [])
      [("human", "hi")] none none)
    rfl rfl

/-- C8, counterexample: when both videos lack an index, the backend
`compare_videos` returns without invoking generation, but the result is
an intent-"ERROR" record whose response does not carry the
`INSUFFICIENT_DATA` label the claim requires. -/
theorem c8_counterexample :
    (compare_videos o8 pNoIndex pNoIndexB [] "q").intent = "ERROR" ∧
    strTake (compare_videos o8 pNoIndex pNoIndexB [] "q").response 17 ≠
      "INSUFFICIENT_DATA" ∧
    (compare_videos o8 pNoIndex pNoIndexB [] "q").genCalled = false := by
  refine ⟨rfl, ?_, rfl⟩
  decide

/-- C8, amended: when both sides have no index, comparison returns
early without invoking the generation model; `multiVideo.py` returns a
result prefixed `INSUFFICIENT_DATA`, while the backend pipeline returns
an intent-ERROR result ("Transcripts missing for both videos. Cannot
compare."). -/
theorem c8_amended :
    ∀ (o o2 : CompareOracle) (pA pB pA2 pB2 : Processed)
      (cA1 cA2 cB1 cB2 : Option (List Doc)) (ctA ctB : Bool)
      (hist hist2 : List Msg) (q q2 : String),
      pA.vectorstore = false → pB.vectorstore = false →
      (pA2.chunks.isEmpty || !pA2.vectorstore) = true →
      (pB2.chunks.isEmpty || !pB2.vectorstore) = true →
      ((compare_videos o pA pB hist q).intent = "ERROR" ∧
       (compare_videos o pA pB hist q).response =
         "Transcripts missing for both videos. Cannot compare." ∧
       (compare_videos o pA pB hist q).genCalled = false) ∧
      (strTake (compare_videos_mv o2 pA2 pB2 cA1 cA2 cB1 cB2 ctA ctB hist2 q2).response
          17 = "INSUFFICIENT_DATA" ∧
       (compare_videos_mv o2 pA2 pB2 cA1 cA2 cB1 cB2 ctA ctB hist2 q2).genCalled =
         false) := by
  intro o o2 pA pB pA2 pB2 cA1 cA2 cB1 cB2 ctA ctB hist hist2 q q2 hA hB hA2 hB2
  constructor
  · unfold compare_videos
    rw [if_pos (by rw [hA, hB]; rfl)]
    exact ⟨rfl, rfl, rfl⟩
  · unfold compare_videos_mv
    rw [if_pos (by rw [hA2, hB2]; rfl)]
    refine ⟨?_, rfl⟩
    show strTake "INSUFFICIENT_DATA: Transcripts missing for both videos. Please provide videos with captions or transcripts." 17 = "INSUFFICIENT_DATA"
    decide

/-- C8 witness: the amended behaviour at two concrete no-index
videos. -/
theorem c8_witness :
    ((compare_videos o8 pNoIndex pNoIndexB [] "q").intent = "ERROR" ∧
     (compare_videos o8 pNoIndex pNoIndexB [] "q").response =
       "Transcripts missing for both videos. Cannot compare." ∧
     (compare_videos o8 pNoIndex pNoIndexB [] "q").genCalled = false) ∧
    (strTake (compare_videos_mv o8 pNoIndex pNoIndexB none none none none
        false false [] "q").response 17 = "INSUFFICIENT_DATA" ∧
     (compare_videos_mv o8 pNoIndex pNoIndexB none none none none
        false false [] "q").genCalled = false) :=
  c8_amended o8 o8 pNoIndex pNoIndexB pNoIndex pNoIndexB none none none none
    false false [] [] "q" "q" rfl rfl rfl rfl

/-- C1, counterexample: with the same retrieval outcome — a single
low-quality segment, so the quality filter keeps zero items — the
backend `chat_with_video` invokes the RAG generation chain with an
empty context string and returns a RAG-intent answer (no metadata-only
path, no not-found signal), while `answer_question_single` takes the
metadata-only fallback. -/
theorem c1_counterexample :
    chat_with_video o1 p1 [] none "q" =
      Except.ok (ChatOutcome.mk (ChatResult.mk "GEN:" "RAG" [])
        [("human", "q"), ("ai", "GEN:")] none (some "")) ∧
    answer_question_single ao1 p1 [] "q" =
      Except.ok (AnswerOutcome.mk "FALLBACK-ANSWER"
        [("human", "q"), ("ai", "FALLBACK-ANSWER")] none true) :=
  ⟨rfl, rfl⟩

/-- C1, amended: `answer_question_single` (`multiVideo.py`) does branch
on `stats.kept == 0`: whenever retrieval succeeds but the evidence
filter keeps zero segments, the turn takes the metadata-only fallback
and the RAG generation chain is never handed a context; the backend
`chat_with_video` has no such branch (see the counterexample). -/
theorem c1_amended :
    ∀ (o : AnswerOracle) (p : Processed) (hist : List Msg) (q : String)
      (docs : List Doc) (out : AnswerOutcome),
      p.chunks.isEmpty = false → p.vectorstore = true →
      o.retrieval = Except.ok docs →
      (format_evidence docs true).2.1 = 0 →
      answer_question_single o p hist q = Except.ok out →
      out.fallbackCalled = true ∧ out.genContext = none := by
  intro o p hist q docs out hch hvs hr hk hok
  unfold answer_question_single at hok
  rw [if_neg (by rw [hch, hvs]; decide)] at hok
  rw [hr] at hok
  dsimp only at hok
  rw [if_pos hk] at hok
  split at hok
  · simp at hok
  · injection hok with h
    subst h
    exact ⟨rfl, rfl⟩

/-- C1 witness: the fallback branch at the concrete low-quality
retrieval. -/
theorem c1_witness :
    (AnswerOutcome.mk "FALLBACK-ANSWER"
      [("human", "q"), ("ai", "FALLBACK-ANSWER")] none true).fallbackCalled = true ∧
    (AnswerOutcome.mk "FALLBACK-ANSWER"
      [("human", "q"), ("ai", "FALLBACK-ANSWER")] none true).genContext = none :=
  c1_amended ao1 p1 [] "q" [lqDoc]
    (AnswerOutcome.mk "FALLBACK-ANSWER"
      [("human", "q"), ("ai", "FALLBACK-ANSWER")] none true)
    rfl rfl rfl (by decide) rfl

/-- `groupOk` succeeds exactly on a passing group check, returning the
11 characters. -/
theorem groupOk_some (cs out : List Char) (h : groupOk cs = some out) :
    groupCheck cs = true ∧ out = cs.take 11 := by
  unfold groupOk at h
  by_cases hc : groupCheck cs = true
  · rw [if_pos hc] at h
    exact ⟨hc, (Option.some.inj h).symm⟩
  · rw [if_neg hc] at h
    simp at h

/-- A failing `groupOk` means the group check fails. -/
theorem groupOk_none (cs : List Char) (h : groupOk cs = none) :
    groupCheck cs = false := by
  cases hcc : groupCheck cs
  · rfl
  · unfold groupOk at h
    rw [if_pos hcc] at h
    simp at h

/-- No group can start at index 0 (every prefix alternative needs at
least one preceding character). -/
theorem vidGroupAt_zero (cs : List Char) : vidGroupAt cs 0 = false := by
  simp [vidGroupAt, preAt]

/-- If the pattern fails at the head via `v=`, the group check two
characters in fails. -/
theorem tm_none_v (c : Char) (cs : List Char) (h : tryMatch (c :: cs) = none)
    (h2 : twoAre (c :: cs) 'v' '=' = true) :
    groupCheck ((c :: cs).drop 2) = false := by
  unfold tryMatch at h
  rw [if_pos h2] at h
  exact groupOk_none _ h

/-- If the pattern fails at the head via `/`, the group check one
character in fails. -/
theorem tm_none_slash (c : Char) (cs : List Char) (h : tryMatch (c :: cs) = none)
    (h1 : headIs (c :: cs) '/' = true) :
    groupCheck ((c :: cs).drop 1) = false := by
  unfold tryMatch at h
  have hc : c = '/' := by simpa [headIs] using h1
  subst hc
  rw [if_neg (by rcases cs with _ | ⟨c2, cs2⟩ <;> simp [twoAre])] at h
  rw [if_pos h1] at h
  exact groupOk_none _ h

/-- If the pattern fails at the head via `be/`, the group check three
characters in fails. -/
theorem tm_none_be (c : Char) (cs : List Char) (h : tryMatch (c :: cs) = none)
    (h3 : threeAre (c :: cs) 'b' 'e' '/' = true) :
    groupCheck ((c :: cs).drop 3) = false := by
  unfold tryMatch at h
  rcases cs with _ | ⟨c2, cs2⟩
  · simp [threeAre] at h3
  · rcases cs2 with _ | ⟨c3, cs3⟩
    · simp [threeAre] at h3
    · simp [threeAre] at h3
      have hb : c = 'b' := h3.1.1
      have he : c2 = 'e' := h3.1.2
      have hs : c3 = '/' := h3.2
      subst hb; subst he; subst hs
      rw [if_neg (by simp [twoAre])] at h
      rw [if_neg (by simp [headIs])] at h
      rw [if_pos (by simp [threeAre])] at h
      exact groupOk_none _ h

/-- When the pattern fails at the head, groups of the tail are exactly
the groups of the whole, shifted by one. -/
theorem vidGroupAt_shift (c : Char) (cs : List Char)
    (h : tryMatch (c :: cs) = none) (g : Nat) :
    vidGroupAt (c :: cs) (g + 1) = vidGroupAt cs g := by
  have hdrop : (c :: cs).drop (g + 1) = cs.drop g := List.drop_succ_cons
  by_cases hGC : groupCheck (cs.drop g) = true
  · unfold vidGroupAt
    rw [hdrop, hGC]
    simp only [Bool.and_true]
    match g with
    | 0 =>
      have hsl : headIs (c :: cs) '/' = false := by
        cases hq : headIs (c :: cs) '/'
        · rfl
        · exfalso
          have hx := tm_none_slash c cs h hq
          simp at hx
          simp at hGC
          exact absurd hGC (by simp [hx])
      simp [preAt, hsl]
    | 1 =>
      have h2f : twoAre (c :: cs) 'v' '=' = false := by
        cases hq : twoAre (c :: cs) 'v' '='
        · rfl
        · exfalso
          have hx := tm_none_v c cs h hq
          simp at hx
          exact absurd hGC (by simp [hx])
      simp [preAt, h2f]
    | 2 =>
      have h3f : threeAre (c :: cs) 'b' 'e' '/' = false := by
        cases hq : threeAre (c :: cs) 'b' 'e' '/'
        · rfl
        · exfalso
          have hx := tm_none_be c cs h hq
          simp at hx
          exact absurd hGC (by simp [hx])
      simp [preAt, h3f]
    | n + 3 =>
      simp [preAt, List.drop_succ_cons]
  · have hgf : groupCheck (cs.drop g) = false := by
      cases hq : groupCheck (cs.drop g)
      · rfl
      · exact absurd hq hGC
    unfold vidGroupAt
    rw [hdrop, hgf]
    simp

/-- A head match yields a valid group whose position is minimal. -/
theorem tryMatch_some_correct (c : Char) (cs : List Char) (out : List Char)
    (h : tryMatch (c :: cs) = some out) :
    ∃ g, vidGroupAt (c :: cs) g = true ∧ out = ((c :: cs).drop g).take 11 ∧
      ∀ j, j < g → vidGroupAt (c :: cs) j = false := by
  unfold tryMatch at h
  by_cases h2 : twoAre (c :: cs) 'v' '=' = true
  · rw [if_pos h2] at h
    obtain ⟨hgc, hout⟩ := groupOk_some _ _ h
    rcases cs with _ | ⟨c2, cs2⟩
    · simp [twoAre] at h2
    · have hc : c = 'v' := by
        simp [twoAre] at h2
        exact h2.1
      refine ⟨2, ?_, hout, ?_⟩
      · simp [vidGroupAt, preAt, h2]
        simpa using hgc
      · intro j hj
        interval_cases j
        · exact vidGroupAt_zero _
        · subst hc
          simp [vidGroupAt, preAt, headIs]
  · rw [if_neg h2] at h
    by_cases h1 : headIs (c :: cs) '/' = true
    · rw [if_pos h1] at h
      obtain ⟨hgc, hout⟩ := groupOk_some _ _ h
      refine ⟨1, ?_, hout, ?_⟩
      · simp [vidGroupAt, preAt, h1]
        simpa using hgc
      · intro j hj
        interval_cases j
        exact vidGroupAt_zero _
    · rw [if_neg h1] at h
      by_cases h3 : threeAre (c :: cs) 'b' 'e' '/' = true
      · rw [if_pos h3] at h
        obtain ⟨hgc, hout⟩ := groupOk_some _ _ h
        rcases cs with _ | ⟨c2, cs2⟩
        · simp [threeAre] at h3
        · rcases cs2 with _ | ⟨c3, cs3⟩
          · simp [threeAre] at h3
          · have hb : c = 'b' := by
              simp [threeAre] at h3
              exact h3.1.1
            have he : c2 = 'e' := by
              simp [threeAre] at h3
              exact h3.1.2
            refine ⟨3, ?_, hout, ?_⟩
            · simp [vidGroupAt, preAt, h3]
              simpa using hgc
            · intro j hj
              interval_cases j
              · exact vidGroupAt_zero _
              · subst hb
                simp [vidGroupAt, preAt, headIs]
              · subst hb; subst he
                simp [vidGroupAt, preAt, headIs, twoAre]
      · rw [if_neg h3] at h
        simp at h

/-- `searchFrom` finds exactly the leftmost group: if it fails there is
no group; if it succeeds, the result is the group at the least valid
position. -/
theorem searchFrom_correct : ∀ cs : List Char,
    (searchFrom cs = none → ∀ g, vidGroupAt cs g = false) ∧
    (∀ out, searchFrom cs = some out →
      ∃ g, vidGroupAt cs g = true ∧ out = (cs.drop g).take 11 ∧
        ∀ j, j < g → vidGroupAt cs j = false) := by
  intro cs
  induction cs with
  | nil =>
    constructor
    · intro _ g
      simp [vidGroupAt, groupCheck]
    · intro out h
      simp [searchFrom] at h
  | cons c cs ih =>
    constructor
    · intro hn g
      have htm : tryMatch (c :: cs) = none := by
        cases htm : tryMatch (c :: cs) with
        | some g0 =>
          unfold searchFrom at hn
          rw [htm] at hn
          simp at hn
        | none => rfl
      have hrest : searchFrom cs = none := by
        unfold searchFrom at hn
        rw [htm] at hn
        exact hn
      match g with
      | 0 => exact vidGroupAt_zero _
      | g + 1 =>
        rw [vidGroupAt_shift c cs htm g]
        exact ih.1 hrest g
    · intro out hs
      cases htm : tryMatch (c :: cs) with
      | some out0 =>
        have hout : out0 = out := by
          unfold searchFrom at hs
          rw [htm] at hs
          exact Option.some.inj hs
        subst hout
        exact tryMatch_some_correct c cs out0 htm
      | none =>
        have hs2 : searchFrom cs = some out := by
          unfold searchFrom at hs
          rw [htm] at hs
          exact hs
        obtain ⟨g, hg, hout, hmin⟩ := ih.2 out hs2
        refine ⟨g + 1, ?_, ?_, ?_⟩
        · rw [vidGroupAt_shift c cs htm g]
          exact hg
        · rw [List.drop_succ_cons]
          exact hout
        · intro j hj
          match j with
          | 0 => exact vidGroupAt_zero _
          | j + 1 =>
            rw [vidGroupAt_shift c cs htm j]
            exact hmin j (by omega)

/-- C10: `extract_video_id` returns the first (leftmost) 11-character
`[0-9A-Za-z_-]` group preceded by `v=`, `/` or `be/` when one exists,
and returns the input unchanged otherwise (arbitrary non-URL text
passes through as a video id). -/
theorem c10_extract_first_group (s : String) :
    (∀ h : ∃ g, vidGroupAt s.data g = true,
      extract_video_id s = String.mk ((s.data.drop (Nat.find h)).take 11)) ∧
    ((¬ ∃ g, vidGroupAt s.data g = true) → extract_video_id s = s) := by
  constructor
  · intro hex
    cases hsf : searchFrom s.data with
    | none =>
      exfalso
      obtain ⟨g, hg⟩ := hex
      have hfalse := (searchFrom_correct s.data).1 hsf g
      rw [hg] at hfalse
      exact absurd hfalse (by simp)
    | some out =>
      obtain ⟨g, hg, hout, hmin⟩ := (searchFrom_correct s.data).2 out hsf
      have hfind : Nat.find hex = g := by
        rcases Nat.lt_trichotomy (Nat.find hex) g with hlt | heq | hgt
        · exfalso
          have hspec := Nat.find_spec hex
          have hfalse := hmin _ hlt
          rw [hfalse] at hspec
          exact absurd hspec (by simp)
        · exact heq
        · exact absurd hg (Nat.find_min hex hgt)
      rw [hfind]
      unfold extract_video_id
      rw [hsf, hout]
  · intro hnex
    unfold extract_video_id
    cases hsf : searchFrom s.data with
    | none => rfl
    | some out =>
      exfalso
      obtain ⟨g, hg, -, -⟩ := (searchFrom_correct s.data).2 out hsf
      exact hnex ⟨g, hg⟩

/-- C10 witness: a real YouTube URL yields the group at the least valid
position, and group-free text passes through unchanged. -/
theorem c10_witness :
    (∃ h : ∃ g, vidGroupAt (String.data "https://youtu.be/dQw4w9WgXcQ") g = true,
      extract_video_id "https://youtu.be/dQw4w9WgXcQ" =
        String.mk (((String.data "https://youtu.be/dQw4w9WgXcQ").drop
          (Nat.find h)).take 11)) ∧
    extract_video_id "hello" = "hello" := by
  constructor
  · exact ⟨⟨17, by decide⟩,
      (c10_extract_first_group "https://youtu.be/dQw4w9WgXcQ").1 ⟨17, by decide⟩⟩
  · refine (c10_extract_first_group "hello").2 ?_
    rintro ⟨g, hg⟩
    have hgc : groupCheck ((String.data "hello").drop g) = true := by
      simp only [vidGroupAt, Bool.and_eq_true] at hg
      exact hg.2
    have hlen : (((String.data "hello").drop g).take 11).length = 11 := by
      simp only [groupCheck, Bool.and_eq_true, decide_eq_true_eq] at hgc
      exact hgc.1
    rw [List.length_take, List.length_drop] at hlen
    have h5 : (String.data "hello").length = 5 := rfl
    rw [h5] at hlen
    omega
